import Mathlib

/-!
Shallow embedding of the winnow-based JSON parser in `src/json.rs`.

The Rust parser threads a `&mut Input` (here an explicit `List Char` state).
A parser returns either a value together with the remaining input, or an
error; winnow does not rewind the input on error propagation (`?`), so the
error also carries the input state at the failure point.  Combinators that
reset to a checkpoint (`alt`, `opt`, `separated`, `parse_to`) do so
explicitly, exactly as winnow does.

Machine integers: the Rust code parses digit runs with
`digit1.parse_to::<i64>()`, which fails (rather than wrapping) when the
value exceeds `i64::MAX`; this is modelled with `Nat`/`Int` and an explicit
bound.  The `f64` produced by `format!("{}.{}", num, frac).parse::<f64>()`
is modelled by the exact rational value denoted by that decimal string
(the IEEE rounding step is abstracted away; all comparisons in this file
are between values whose decimal forms are distinct rationals).
-/

/-- Result of running a parser: success with the remaining input, or an
error carrying the input state at the failure point (winnow leaves the
cursor wherever the failing sub-parser left it). -/
inductive PRes (α : Type) where
  | ok : α → List Char → PRes α
  | err : List Char → PRes α
deriving DecidableEq

/-- A parser over a character stream, state-passing style. -/
def P (α : Type) : Type := List Char → PRes α

/-- Whether a parser result is an error. -/
def PRes.isErr {α : Type} : PRes α → Bool
  | .ok _ _ => false
  | .err _ => true

/-- Helper for literal matching: returns the remaining input iff the
literal is a prefix of the input. -/
def litGo : List Char → List Char → Option (List Char)
  | [], s => some s
  | _ :: _, [] => none
  | t :: ts, c :: cs => if c = t then litGo ts cs else none

/-- winnow literal (`&str` tag) parser: consumes the literal iff it is a
prefix of the input; on mismatch the offset is unchanged. -/
def lit (t : List Char) : P Unit := fun s =>
  match litGo t s with
  | some r => .ok () r
  | none => .err s

/-- winnow single-character literal parser (`Compare<char>`). -/
def litc (c : Char) : P Unit := fun s =>
  match s with
  | [] => .err []
  | x :: r => if x = c then .ok () r else .err (x :: r)

/-- The characters matched by winnow `multispace0`: space, tab, carriage
return, newline. -/
def wsChar (c : Char) : Bool :=
  c == ' ' || c == '\t' || c == '\r' || c == '\n'

/-- winnow `multispace0`: consumes the maximal run of whitespace
characters; always succeeds. -/
def multispace0 : P (List Char) := fun s =>
  .ok (s.takeWhile wsChar) (s.dropWhile wsChar)

/-- winnow `digit1`: consumes the maximal run of decimal digits, failing
(without consuming) when that run is empty. -/
def digit1 : P (List Char) := fun s =>
  if (s.takeWhile Char.isDigit).isEmpty then .err s
  else .ok (s.takeWhile Char.isDigit) (s.dropWhile Char.isDigit)

/-- Numeric value of a decimal digit run (as `str::parse` computes it,
leading zeros allowed). -/
def digitsVal (d : List Char) : Nat :=
  d.foldl (fun a c => 10 * a + (c.toNat - 48)) 0

/-- The `i64::MAX`. -/
def i64Max : Nat := 9223372036854775807

/-- Rust `str::parse::<i64>` on a non-empty digit-only string: the value,
unless it overflows `i64::MAX`. -/
def i64OfDigits (d : List Char) : Option Int :=
  if digitsVal d ≤ i64Max then some (digitsVal d : Int) else none

/-- The `digit1.parse_to::<i64>()`: parse a digit run and convert; on
conversion failure winnow `parse_to` resets the cursor to the
pre-attempt checkpoint. -/
def digit1I64 : P Int := fun s =>
  match digit1 s with
  | .err r => .err r
  | .ok d r =>
    match i64OfDigits d with
    | some v => .ok v r
    | none => .err s

/-- Boolean predicate used by `take_until(0.., c)`: not the delimiter. -/
def notDelim (c x : Char) : Bool := !(x == c)

/-- winnow `take_until(0.., c)`: consumes up to but not including the
first occurrence of `c`, failing (without consuming) if `c` does not
occur. -/
def take_until0 (c : Char) : P (List Char) := fun s =>
  if (s.dropWhile (notDelim c)).isEmpty then .err s
  else .ok (s.takeWhile (notDelim c)) (s.dropWhile (notDelim c))

/-- Map over a parser's output (winnow `.map` / `.value`). -/
def pmap {α β : Type} (f : α → β) (p : P α) : P β := fun s =>
  match p s with
  | .ok a r => .ok (f a) r
  | .err r => .err r

/-- winnow `alt` over a list of parsers: each alternative is attempted
from the same checkpoint; the first success is committed to; if all fail,
the error of the last alternative is returned. -/
def altL {α : Type} : List (P α) → P α
  | [] => fun s => .err s
  | [p] => fun s => p s
  | p :: q :: ps => fun s =>
    match p s with
    | .ok a r => .ok a r
    | .err _ => altL (q :: ps) s

/-- The `skip_whitespace` combinator of `json.rs`: skip whitespace, run
the wrapped parser, skip whitespace again, discarding outputs. -/
def skip_whitespace {α : Type} (p : P α) : P Unit := fun s =>
  match p (s.dropWhile wsChar) with
  | .err r => .err r
  | .ok _ s2 => .ok () (s2.dropWhile wsChar)

/-- Iteration of winnow `separated(1.., p, sep)` after the first element:
repeatedly checkpoint, try `sep` then `p`; if either fails, reset to the
checkpoint and return the accumulator.  Structural fuel stands in for
winnow's loop; callers supply `length + 1` fuel, which cannot be
exhausted because `sep` always consumes at least one character here. -/
def sepLoop {α β : Type} (p : P α) (sep : P Unit) (add : β → α → β) :
    Nat → β → P β
  | 0, _ => fun s => .err s
  | Nat.succ n, acc => fun s =>
    match sep s with
    | .err _ => .ok acc s
    | .ok _ s1 =>
      match p s1 with
      | .err _ => .ok acc s
      | .ok a s2 => sepLoop p sep add n (add acc a) s2

/-- winnow `separated(1.., p, sep)` accumulating with `add` from `init`
(`Vec::push` for arrays, `HashMap::insert` for objects). -/
def separated1 {α β : Type} (p : P α) (sep : P Unit) (add : β → α → β)
    (init : β) : P β := fun s =>
  match p s with
  | .err r => .err r
  | .ok a s1 => sepLoop p sep add (s1.length + 1) (add init a) s1

/-- The `JNum` payload (source name `Num`, taken in Lean) of a number node (`json.rs` lines 16-19); the float
payload is the exact rational denoted by the decimal string the code
builds. -/
inductive JNum where
  | Int : Int → JNum
  | Float : ℚ → JNum
deriving DecidableEq

/-- The JSON value tree (`json.rs` lines 22-30).  `Object` models the
`HashMap` by an association list maintained by `objInsert`. -/
inductive JsonValue where
  | Null : JsonValue
  | Bool : Bool → JsonValue
  | Number : JNum → JsonValue
  | String : List Char → JsonValue
  | Array : List JsonValue → JsonValue
  | Object : List (List Char × JsonValue) → JsonValue

/-- The literal `null`. -/
def nullLit : List Char := ['n', 'u', 'l', 'l']

/-- The literal `true`. -/
def trueLit : List Char := ['t', 'r', 'u', 'e']

/-- The literal `false`. -/
def falseLit : List Char := ['f', 'a', 'l', 's', 'e']

/-- The `parse_null` (`json.rs` lines 87-93): matches the literal `null`. -/
def parse_null : P Unit := lit nullLit

/-- The `parse_bool` (`json.rs` lines 95-103): `alt(("true", "false"))`
converted to a boolean. -/
def parse_bool : P Bool := fun s =>
  match lit trueLit s with
  | .ok _ r => .ok true r
  | .err _ =>
    match lit falseLit s with
    | .ok _ r => .ok false r
    | .err r => .err r

/-- The exact rational value of `format!("{}.{}", ip, fp)` as Rust builds
the float: `fp` is printed without leading zeros (it was parsed into an
`i64` first), so the fractional digit count is that of `fp` itself. -/
def formatF64 (ip fp : Int) : ℚ :=
  (ip : ℚ) + (fp : ℚ) / (10 : ℚ) ^ (Nat.toDigits 10 fp.toNat).length

/-- The `parse_num` (`json.rs` lines 105-133): optional `-` sign, mandatory
digit run parsed to `i64`, then an optional `.` followed by a mandatory
digit run parsed to `i64`; the float value is rebuilt from
`format!("{}.{}", num, frac)`. -/
def parse_num : P JNum := fun s =>
  let signRes : Bool × List Char :=
    match lit ['-'] s with
    | .ok _ r => (true, r)
    | .err _ => (false, s)
  match digit1I64 signRes.2 with
  | .err r => .err r
  | .ok num s2 =>
    match litc '.' s2 with
    | .ok _ s3 =>
      match digit1I64 s3 with
      | .err r => .err r
      | .ok frac s4 =>
        let v := formatF64 num frac
        .ok (if signRes.1 then JNum.Float (-v) else JNum.Float v) s4
    | .err _ =>
      .ok (if signRes.1 then JNum.Int (-num) else JNum.Int num) s2

/-- The `parse_string` (`json.rs` lines 148-157):
`delimited('"', take_until(0.., '"'), '"')`, copied verbatim. -/
def parse_string : P (List Char) := fun s =>
  match litc '"' s with
  | .err r => .err r
  | .ok _ s1 =>
    match take_until0 '"' s1 with
    | .err r => .err r
    | .ok content s2 =>
      match litc '"' s2 with
      | .err r => .err r
      | .ok _ s3 => .ok content s3

/-- The `HashMap::insert` modelled on an association list: replace the value
at the first occurrence of the key, else append the binding. -/
def objInsert (m : List (List Char × JsonValue)) (kv : List Char × JsonValue) :
    List (List Char × JsonValue) :=
  match m with
  | [] => [kv]
  | p :: rest => if p.1 = kv.1 then kv :: rest else p :: objInsert rest kv

/-- The map obtained by inserting a sequence of pairs into an empty
`HashMap`, in order (winnow's `Accumulate` for `HashMap`). -/
def objFromPairs (ps : List (List Char × JsonValue)) :
    List (List Char × JsonValue) :=
  ps.foldl objInsert []

/-- The `HashMap` lookup on the association-list model. -/
def objFind (k : List Char) : List (List Char × JsonValue) → Option JsonValue
  | [] => none
  | p :: rest => if p.1 = k then some p.2 else objFind k rest

/-- The value of the last occurrence of a key in a pair sequence. -/
def lastAssoc (k : List Char) (ps : List (List Char × JsonValue)) :
    Option JsonValue :=
  ps.foldl (fun acc p => if p.1 = k then some p.2 else acc) none

/-- The comma separator of `json.rs`: `skip_whitespace(',')`. -/
def sepComma : P Unit := skip_whitespace (litc ',')

/-- The colon separator of `json.rs`: `skip_whitespace(':')`. -/
def sepColon : P Unit := skip_whitespace (litc ':')

/-- The `parse_array` (`json.rs` lines 159-178) with the value parser passed
explicitly: `delimited(skip_whitespace('['), separated(1.., value, skip_whitespace(',')), skip_whitespace(']'))`. -/
def parse_arrayWith (pv : P JsonValue) : P (List JsonValue) := fun s =>
  match skip_whitespace (litc '[') s with
  | .err r => .err r
  | .ok _ s1 =>
    match separated1 pv sepComma (fun l a => l ++ [a]) [] s1 with
    | .err r => .err r
    | .ok xs s2 =>
      match skip_whitespace (litc ']') s2 with
      | .err r => .err r
      | .ok _ s3 => .ok xs s3

/-- The key-value pair parser of `parse_object`:
`separated_pair(parse_string, skip_whitespace(':'), value)`. -/
def parse_kv_pairWith (pv : P JsonValue) : P (List Char × JsonValue) := fun s =>
  match parse_string s with
  | .err r => .err r
  | .ok k s1 =>
    match sepColon s1 with
    | .err r => .err r
    | .ok _ s2 =>
      match pv s2 with
      | .err r => .err r
      | .ok v s3 => .ok (k, v) s3

/-- The `parse_object` (`json.rs` lines 180-201) with the value parser passed
explicitly: braces with whitespace skipping around them, at least one
`string : value` pair, accumulated by `HashMap::insert`. -/
def parse_objectWith (pv : P JsonValue) : P (List (List Char × JsonValue)) :=
  fun s =>
  match skip_whitespace (litc '\x7b') s with
  | .err r => .err r
  | .ok _ s1 =>
    match separated1 (parse_kv_pairWith pv) sepComma objInsert [] s1 with
    | .err r => .err r
    | .ok m s2 =>
      match skip_whitespace (litc '\x7d') s2 with
      | .err r => .err r
      | .ok _ s3 => .ok m s3

/-- First alternative of `parse_value`: `parse_null.value(JsonValue::Null)`. -/
def pNullV : P JsonValue := pmap (fun _ => JsonValue.Null) parse_null

/-- Second alternative of `parse_value`: `parse_bool.map(JsonValue::Bool)`. -/
def pBoolV : P JsonValue := pmap JsonValue.Bool parse_bool

/-- Third alternative of `parse_value`: `parse_num.map(JsonValue::Number)`. -/
def pNumV : P JsonValue := pmap JsonValue.Number parse_num

/-- Fourth alternative of `parse_value`: `parse_string.map(JsonValue::String)`. -/
def pStringV : P JsonValue := pmap JsonValue.String parse_string

/-- Fifth alternative of `parse_value`: `parse_array.map(JsonValue::Array)`. -/
def pArrayV (pv : P JsonValue) : P JsonValue :=
  pmap JsonValue.Array (parse_arrayWith pv)

/-- Sixth alternative of `parse_value`: `parse_object.map(JsonValue::Object)`. -/
def pObjectV (pv : P JsonValue) : P JsonValue :=
  pmap JsonValue.Object (parse_objectWith pv)

/-- The `parse_value` (`json.rs` lines 203-227), fuel-indexed: `alt` over the
six alternatives in source order; the recursive occurrences inside array
and object run with one unit less fuel.  Fuel only bounds nesting depth;
each recursion step consumes at least the opening bracket, so
`length + 1` fuel is never exhausted. -/
def parse_valueF : Nat → P JsonValue
  | 0 => fun s => .err s
  | Nat.succ n => fun s =>
    altL [pNullV, pBoolV, pNumV, pStringV,
          pArrayV (parse_valueF n), pObjectV (parse_valueF n)] s

/-- A value parser with adequate fuel for its input, used wherever the
Rust code calls `parse_value`. -/
def parse_valueSelf : P JsonValue := fun s => parse_valueF (s.length + 1) s

/-- The `parse_value` at the top level. -/
def parse_value : P JsonValue := parse_valueSelf

/-- The `parse_json` (`json.rs` lines 53-68): the entry point simply calls
`parse_value`; there is no end-of-input or trailing-content check. -/
def parse_json : P JsonValue := fun s => parse_value s

/-- The `parse_array` as a standalone parser (as called by the tests). -/
def parse_array : P (List JsonValue) := parse_arrayWith parse_valueSelf

/-- The `parse_object` as a standalone parser (as called by the tests). -/
def parse_object : P (List (List Char × JsonValue)) :=
  parse_objectWith parse_valueSelf

/-- Head-of-input classifier used in theorem statements: does the input
start with a decimal digit? -/
def headIsDigit : List Char → Bool
  | [] => false
  | c :: _ => c.isDigit

/-- First characters of the scalar alternatives (null, bool, number,
string): `n`, `t`, `f`, a digit or `-`, `"`. -/
def scalarStart (c : Char) : Bool :=
  c == 'n' || c == 't' || c == 'f' || c == '"' || c == '-' || c.isDigit

/-- Does the input start with a scalar-alternative first character? -/
def scalarStartHead : List Char → Bool
  | [] => false
  | c :: _ => scalarStart c

/-! ## Shared helper lemmas -/

/-- A result is an error iff it is `err` at some remaining input. -/
theorem PRes.isErr_iff {α : Type} (x : PRes α) :
    x.isErr = true ↔ ∃ r, x = .err r := by
  cases x with
  | ok a r => simp [PRes.isErr]
  | err r => simp [PRes.isErr]

/-- The `takeWhile` passes over a block of characters satisfying the
predicate. -/
theorem takeWhile_append_pos {p : Char → Bool} :
    ∀ d : List Char, (∀ c ∈ d, p c = true) →
      ∀ r : List Char, (d ++ r).takeWhile p = d ++ r.takeWhile p := by
  intro d
  induction d with
  | nil => intro _ r; simp
  | cons c cs ih =>
    intro h r
    have hc : p c = true := h c (by simp)
    simp [List.takeWhile_cons, hc]
    exact ih (fun x hx => h x (by simp [hx])) r

/-- The `dropWhile` passes over a block of characters satisfying the
predicate. -/
theorem dropWhile_append_pos {p : Char → Bool} :
    ∀ d : List Char, (∀ c ∈ d, p c = true) →
      ∀ r : List Char, (d ++ r).dropWhile p = r.dropWhile p := by
  intro d
  induction d with
  | nil => intro _ r; simp
  | cons c cs ih =>
    intro h r
    have hc : p c = true := h c (by simp)
    simp [List.dropWhile_cons, hc]
    exact ih (fun x hx => h x (by simp [hx])) r

/-- The `dropWhile` consumes a list all of whose elements satisfy the
predicate. -/
theorem dropWhile_eq_nil_pos {p : Char → Bool} (d : List Char)
    (h : ∀ c ∈ d, p c = true) : d.dropWhile p = [] := by
  have := dropWhile_append_pos d h []
  simpa using this

/-- The `dropWhile` is the identity when the head fails the predicate. -/
theorem dropWhile_eq_self_neg_head {p : Char → Bool} (c : Char)
    (r : List Char) (h : p c = false) : (c :: r).dropWhile p = c :: r := by
  simp [List.dropWhile_cons, h]

/-- The `takeWhile` is empty when the head fails the predicate. -/
theorem takeWhile_eq_nil_neg_head {p : Char → Bool} (c : Char)
    (r : List Char) (h : p c = false) : (c :: r).takeWhile p = [] := by
  simp [List.takeWhile_cons, h]

/-- Members of a `takeWhile` satisfy the predicate. -/
theorem mem_takeWhile_pred {p : Char → Bool} :
    ∀ (l : List Char) (x : Char), x ∈ l.takeWhile p → p x = true := by
  intro l
  induction l with
  | nil => intro x hx; simp at hx
  | cons c cs ih =>
    intro x hx
    by_cases hc : p c = true
    · rw [List.takeWhile_cons, if_pos hc] at hx
      rcases List.mem_cons.1 hx with h | h
      · rwa [h]
      · exact ih x h
    · rw [List.takeWhile_cons, if_neg hc] at hx
      simp at hx

/-- A whitespace character is one of the four concrete characters. -/
theorem wsChar_cases {c : Char} (h : wsChar c = true) :
    c = ' ' ∨ c = '\t' ∨ c = '\r' ∨ c = '\n' := by
  simpa [wsChar, or_assoc] using h

/-- Whitespace characters are not any of the scalar-alternative first
characters, and are not digits. -/
theorem wsChar_not_scalar {c : Char} (h : wsChar c = true) :
    c ≠ 'n' ∧ c ≠ 't' ∧ c ≠ 'f' ∧ c ≠ '"' ∧ c ≠ '-' ∧ c.isDigit = false := by
  rcases wsChar_cases h with rfl | rfl | rfl | rfl <;>
    refine ⟨by decide, by decide, by decide, by decide, by decide, by decide⟩

/-- A digit is not a bracket, a brace, a minus, a dot or whitespace. -/
theorem isDigit_facts {c : Char} (h : c.isDigit = true) :
    c ≠ '[' ∧ c ≠ '\x7b' ∧ c ≠ '-' ∧ c ≠ '.' ∧ wsChar c = false := by
  refine ⟨?_, ?_, ?_, ?_, ?_⟩
  · intro he; rw [he] at h; exact absurd h (by decide)
  · intro he; rw [he] at h; exact absurd h (by decide)
  · intro he; rw [he] at h; exact absurd h (by decide)
  · intro he; rw [he] at h; exact absurd h (by decide)
  · cases hw : wsChar c with
    | false => rfl
    | true =>
      rcases wsChar_cases hw with rfl | rfl | rfl | rfl <;> exact absurd h (by decide)

/-- A scalar-alternative first character is not an opening bracket, not an
opening brace, and not whitespace. -/
theorem scalarStart_facts {c : Char} (h : scalarStart c = true) :
    c ≠ '[' ∧ c ≠ '\x7b' ∧ wsChar c = false := by
  have h' : c = 'n' ∨ c = 't' ∨ c = 'f' ∨ c = '"' ∨ c = '-' ∨ c.isDigit = true := by
    simpa [scalarStart, or_assoc] using h
  rcases h' with rfl | rfl | rfl | rfl | rfl | hd
  · exact ⟨by decide, by decide, by decide⟩
  · exact ⟨by decide, by decide, by decide⟩
  · exact ⟨by decide, by decide, by decide⟩
  · exact ⟨by decide, by decide, by decide⟩
  · exact ⟨by decide, by decide, by decide⟩
  · obtain ⟨h1, h2, _, _, h5⟩ := isDigit_facts hd
    exact ⟨h1, h2, h5⟩

/-- A literal parser fails without consuming when the first characters
differ. -/
theorem lit_cons_ne {c d : Char} (ds r : List Char) (h : c ≠ d) :
    lit (d :: ds) (c :: r) = .err (c :: r) := by
  simp [lit, litGo, h]

/-- The `litGo` strips an exact copy of the literal off the front of the
input. -/
theorem litGo_self_append : ∀ t r : List Char, litGo t (t ++ r) = some r := by
  intro t
  induction t with
  | nil => intro r; rfl
  | cons c cs ih =>
    intro r
    simp [litGo, ih r]

/-- A literal parser consumes exactly itself off the front of the
input. -/
theorem lit_self_append (t r : List Char) : lit t (t ++ r) = .ok () r := by
  simp [lit, litGo_self_append]

/-- The `digit1` fails without consuming when the input does not start with a
digit. -/
theorem digit1_err_head (s : List Char) (h : headIsDigit s = false) :
    digit1 s = .err s := by
  cases s with
  | nil => rfl
  | cons c r =>
    simp only [headIsDigit] at h
    simp [digit1, takeWhile_eq_nil_neg_head c r h]

/-- The `digit1` consumes exactly a leading digit block. -/
theorem digit1_block (d r : List Char) (hne : d ≠ [])
    (hd : ∀ c ∈ d, c.isDigit = true) (hr : headIsDigit r = false) :
    digit1 (d ++ r) = .ok d r := by
  have ht : (d ++ r).takeWhile Char.isDigit = d := by
    rw [takeWhile_append_pos d hd r]
    cases r with
    | nil => simp
    | cons c r' =>
      simp only [headIsDigit] at hr
      rw [takeWhile_eq_nil_neg_head c r' hr, List.append_nil]
  have hdr : (d ++ r).dropWhile Char.isDigit = r := by
    rw [dropWhile_append_pos d hd r]
    cases r with
    | nil => simp
    | cons c r' =>
      simp only [headIsDigit] at hr
      exact dropWhile_eq_self_neg_head c r' hr
  rw [digit1, ht, hdr]
  simp [hne]

/-- The `alt` commits to a succeeding first alternative. -/
theorem altL_cons_ok {α : Type} (p : P α) (ps : List (P α)) (s : List Char)
    (a : α) (r : List Char) (h : p s = .ok a r) :
    altL (p :: ps) s = .ok a r := by
  cases ps with
  | nil => simpa [altL] using h
  | cons q qs => simp [altL, h]

/-- The `alt` retries the remaining alternatives from the same checkpoint
after a failed first alternative. -/
theorem altL_cons_err {α : Type} (p : P α) (q : P α) (ps : List (P α))
    (s r : List Char) (h : p s = .err r) :
    altL (p :: q :: ps) s = altL (q :: ps) s := by
  simp [altL, h]

/-- Looking a key up after a `HashMap::insert`: the inserted binding wins
for its own key, other keys are unaffected. -/
theorem objFind_objInsert (k : List Char) (kv : List Char × JsonValue) :
    ∀ m, objFind k (objInsert m kv) =
      if kv.1 = k then some kv.2 else objFind k m := by
  intro m
  induction m with
  | nil => simp [objInsert, objFind]
  | cons p rest ih =>
    by_cases hp : p.1 = kv.1
    · rw [objInsert, if_pos hp]
      by_cases hk : kv.1 = k
      · simp [objFind, hk]
      · have hpk : ¬ p.1 = k := by rw [hp]; exact hk
        simp [objFind, hk, hpk]
    · rw [objInsert, if_neg hp]
      by_cases hpk : p.1 = k
      · have hk : ¬ kv.1 = k := by
          intro he; exact hp (by rw [hpk, he])
        simp [objFind, hpk, hk]
      · simp only [objFind, if_neg hpk]
        rw [ih]

/-- Lookup after folding a pair sequence into a map with `objInsert`:
the last occurrence of a key in the sequence wins. -/
theorem objFind_foldl (k : List Char) :
    ∀ (ps : List (List Char × JsonValue)) (m : List (List Char × JsonValue)),
      objFind k (ps.foldl objInsert m) =
        ps.foldl (fun acc p => if p.1 = k then some p.2 else acc)
          (objFind k m) := by
  intro ps
  induction ps with
  | nil => intro m; rfl
  | cons p rest ih =>
    intro m
    simp only [List.foldl_cons]
    rw [ih (objInsert m p), objFind_objInsert]

/-! ## Claims -/

/-- Claim C1, counterexample: the entry point `parse_json` does NOT fail
on trailing non-whitespace content; on `"null x"` it succeeds, returning
the parsed `Null` with `" x"` left unconsumed, instead of a
trailing-content error. -/
theorem c1_counterexample :
    parse_json ['n', 'u', 'l', 'l', ' ', 'x'] =
      PRes.ok JsonValue.Null [' ', 'x'] := rfl

/-- Claim C1 (amended): `parse_json` parses exactly one value and
performs no end-of-input check: for every trailing suffix, whitespace or
not, the parsed prefix is returned with the suffix left unconsumed, and
no trailing-content error exists. -/
theorem c1_no_trailing_check (rest : List Char) :
    parse_json (nullLit ++ rest) = PRes.ok JsonValue.Null rest := by
  have h1 : pNullV (nullLit ++ rest) = PRes.ok JsonValue.Null rest := by
    simp [pNullV, pmap, parse_null, lit_self_append]
  have h2 : parse_valueF ((nullLit ++ rest).length + 1) (nullLit ++ rest) =
      PRes.ok JsonValue.Null rest :=
    altL_cons_ok _ _ _ _ _ h1
  exact h2

/-- Claim C2: the integer cases and the fraction-without-leading-zeros
float cases evaluate as the spec says, but on `"1.05"` the code drops the
leading zero of the fractional run (the fraction is parsed into an `i64`
and re-formatted), producing the value `1.5` instead of the decimal value
`1.05` written in the literal. -/
theorem c2_parse_num_values :
    parse_num ['1', '2', '3'] = PRes.ok (JNum.Int 123) [] ∧
    parse_num ['-', '1', '2', '3'] = PRes.ok (JNum.Int (-123)) [] ∧
    parse_num ['1', '2', '3', '.', '4', '5'] =
      PRes.ok (JNum.Float (12345 / 100)) [] ∧
    parse_num ['-', '1', '2', '3', '.', '4', '5'] =
      PRes.ok (JNum.Float (-(12345 / 100))) [] ∧
    parse_num ['1', '.', '0', '5'] = PRes.ok (JNum.Float (15 / 10)) [] ∧
    (15 / 10 : ℚ) ≠ 105 / 100 := by
  have l45 : (Nat.toDigits 10 (45 : Int).toNat).length = 2 := rfl
  have l5 : (Nat.toDigits 10 (5 : Int).toNat).length = 1 := rfl
  have e45 : formatF64 123 45 = 12345 / 100 := by
    rw [formatF64, l45]; norm_num
  have e5 : formatF64 1 5 = 15 / 10 := by
    rw [formatF64, l5]; norm_num
  refine ⟨by decide, by decide, ?_, ?_, ?_, by norm_num⟩
  · have h : parse_num ['1', '2', '3', '.', '4', '5'] =
        PRes.ok (JNum.Float (formatF64 123 45)) [] := rfl
    rw [h, e45]
  · have h : parse_num ['-', '1', '2', '3', '.', '4', '5'] =
        PRes.ok (JNum.Float (-formatF64 123 45)) [] := rfl
    rw [h, e45]
  · have h : parse_num ['1', '.', '0', '5'] =
        PRes.ok (JNum.Float (formatF64 1 5)) [] := rfl
    rw [h, e5]

/-- Claim C3, counterexample: on the trailing-bare-`.` input `"12."`,
`parse_num` fails with the cursor after the `.` (remaining input `[]`),
not rewound to before the `.` (which would leave remaining input
`['.']`): the `.` is consumed at the point of failure. -/
theorem c3_counterexample :
    parse_num ['1', '2', '.'] = PRes.err [] ∧
    PRes.err ([] : List Char) ≠ (PRes.err ['.'] : PRes JNum) :=
  ⟨by decide, by decide⟩

/-- Claim C3 (amended): `parse_num` fails on a lone `-` not followed by a
digit, and fails when a `.` following the integer digit run is not
followed by a digit; in the trailing-bare-`.` case the failure leaves the
`.` consumed (the remaining input at failure is what follows the `.`);
the offset is restored only by the enclosing dispatcher's checkpoint, not
by `parse_num` itself. -/
theorem c3_sign_and_dot_failures :
    (∀ rest : List Char, headIsDigit rest = false →
      parse_num ('-' :: rest) = PRes.err rest) ∧
    (∀ d rest : List Char, d ≠ [] → (∀ c ∈ d, c.isDigit = true) →
      digitsVal d ≤ i64Max → headIsDigit rest = false →
      parse_num (d ++ '.' :: rest) = PRes.err rest) := by
  constructor
  · intro rest hr
    have hsign : lit ['-'] ('-' :: rest) = PRes.ok () rest := by
      simpa using lit_self_append ['-'] rest
    have hd : digit1 rest = PRes.err rest := digit1_err_head rest hr
    simp [parse_num, hsign, digit1I64, hd]
  · intro d rest hne hd hle hr
    have hc0 : ∀ c ∈ d, c ≠ '-' := by
      intro c hc
      exact (isDigit_facts (hd c hc)).2.2.1
    have hsign : lit ['-'] (d ++ '.' :: rest) = PRes.err (d ++ '.' :: rest) := by
      cases d with
      | nil => exact absurd rfl hne
      | cons c0 d' =>
        exact lit_cons_ne [] ((d' ++ '.' :: rest)) (hc0 c0 (by simp))
    have hdig : digit1 (d ++ '.' :: rest) = PRes.ok d ('.' :: rest) := by
      exact digit1_block d ('.' :: rest) hne hd rfl
    have hfrac : digit1 rest = PRes.err rest := digit1_err_head rest hr
    simp [parse_num, hsign, digit1I64, hdig, i64OfDigits, hle, litc, hfrac]

/-- Witness for the amended claim C3 at concrete inputs: a lone `-` fails,
and `"12."` fails with the `.` consumed. -/
theorem c3_sign_and_dot_failures_witness :
    parse_num ('-' :: []) = PRes.err [] ∧
    parse_num (['1', '2'] ++ '.' :: []) = PRes.err [] :=
  ⟨c3_sign_and_dot_failures.1 [] (by decide),
   c3_sign_and_dot_failures.2 ['1', '2'] [] (by decide) (by decide)
     (by decide) (by decide)⟩

/-- Claim C5: both composite parsers require at least one element, so the
empty forms `"[]"` and `"{}"` are rejected with an error, while the
one-element forms are accepted. -/
theorem c5_empty_composites_rejected :
    (parse_array ['[', ']']).isErr = true ∧
    (parse_object ['\x7b', '\x7d']).isErr = true ∧
    parse_array ['[', '1', ']'] =
      PRes.ok [JsonValue.Number (JNum.Int 1)] [] ∧
    parse_object ['\x7b', '"', 'a', '"', ':', '1', '\x7d'] =
      PRes.ok [(['a'], JsonValue.Number (JNum.Int 1))] [] :=
  ⟨rfl, rfl, rfl, rfl⟩

/-- Claim C6: duplicate object keys raise no error and the last written
value wins: lookup in the accumulated map always returns the value of the
key's last occurrence in the parsed pair sequence, and on the concrete
duplicate-key document the parse succeeds and maps the key to the second
value. -/
theorem c6_duplicate_keys_last_wins :
    (∀ (ps : List (List Char × JsonValue)) (k : List Char),
      objFind k (objFromPairs ps) = lastAssoc k ps) ∧
    parse_object ['\x7b', '"', 'a', '"', ':', '1', ',',
                  '"', 'a', '"', ':', '2', '\x7d'] =
      PRes.ok (objFromPairs [(['a'], JsonValue.Number (JNum.Int 1)),
                             (['a'], JsonValue.Number (JNum.Int 2))]) [] ∧
    objFind ['a'] (objFromPairs [(['a'], JsonValue.Number (JNum.Int 1)),
                                 (['a'], JsonValue.Number (JNum.Int 2))]) =
      some (JsonValue.Number (JNum.Int 2)) := by
  refine ⟨?_, rfl, rfl⟩
  intro ps k
  rw [objFromPairs, lastAssoc, objFind_foldl]
  rfl

/-- Claim C8: whitespace around structural tokens is optional: the spaced
and the compact array document parse to the same tree
`Array([Int(1), Int(2), Int(3)])`. -/
theorem c8_whitespace_insensitive :
    parse_array ['[', '1', ',', ' ', '2', ',', ' ', '3', ']'] =
      PRes.ok [JsonValue.Number (JNum.Int 1), JsonValue.Number (JNum.Int 2),
               JsonValue.Number (JNum.Int 3)] [] ∧
    parse_array ['[', '1', ',', '2', ',', '3', ']'] =
      PRes.ok [JsonValue.Number (JNum.Int 1), JsonValue.Number (JNum.Int 2),
               JsonValue.Number (JNum.Int 3)] [] :=
  ⟨rfl, rfl⟩

/-- Claim C9: a digit run whose value is at least `2^63` overflows the
`i64` conversion inside `parse_num`, so the literal fails to parse (no
wrap-around), with or without a leading `-`; in particular the digit run
of the `i64`-minimum literal (value exactly `2^63`) is rejected, because
the run is parsed as a non-negative `i64` before the sign is applied. -/
theorem c9_i64_overflow (d : List Char) (hne : d ≠ [])
    (hd : ∀ c ∈ d, c.isDigit = true) (hv : 2 ^ 63 ≤ digitsVal d) :
    (parse_num ('-' :: d)).isErr = true ∧ (parse_num d).isErr = true := by
  have hover : ¬ digitsVal d ≤ i64Max := by
    rw [i64Max]
    omega
  have hblock : digit1 d = PRes.ok d [] := by
    have := digit1_block d [] hne hd rfl
    simpa using this
  constructor
  · have hsign : lit ['-'] ('-' :: d) = PRes.ok () d := by
      simpa using lit_self_append ['-'] d
    simp [parse_num, hsign, digit1I64, hblock, i64OfDigits, hover, PRes.isErr]
  · have hc0 : ∀ c ∈ d, c ≠ '-' := fun c hc => (isDigit_facts (hd c hc)).2.2.1
    have hsign : lit ['-'] d = PRes.err d := by
      cases d with
      | nil => exact absurd rfl hne
      | cons c0 d' => exact lit_cons_ne [] d' (hc0 c0 (by simp))
    simp [parse_num, hsign, digit1I64, hblock, i64OfDigits, hover, PRes.isErr]

/-- Witness for claim C9 at the digit run of the `i64`-minimum literal
`-9223372036854775808` (value exactly `2^63`). -/
theorem c9_i64_overflow_witness :
    (parse_num ('-' :: ['9', '2', '2', '3', '3', '7', '2', '0', '3', '6',
      '8', '5', '4', '7', '7', '5', '8', '0', '8'])).isErr = true ∧
    (parse_num ['9', '2', '2', '3', '3', '7', '2', '0', '3', '6',
      '8', '5', '4', '7', '7', '5', '8', '0', '8']).isErr = true :=
  c9_i64_overflow _ (by decide) (by decide) (by decide)

/-- Claim C7: `parse_string` requires a leading quote, copies the text up
to the next quote verbatim (no escape interpretation), requires and
consumes the closing quote; it fails when no closing quote exists before
end of input or when the input does not start with a quote; a returned
string excludes both delimiters and never contains the quote
character. -/
theorem c7_parse_string_spec :
    (∀ pre post : List Char, '"' ∉ pre →
      parse_string ('"' :: (pre ++ '"' :: post)) = PRes.ok pre post) ∧
    (∀ pre : List Char, '"' ∉ pre →
      parse_string ('"' :: pre) = PRes.err pre) ∧
    (∀ (c : Char) (rest : List Char), c ≠ '"' →
      (parse_string (c :: rest)).isErr = true) ∧
    (parse_string []).isErr = true ∧
    (∀ (s k r : List Char), parse_string s = PRes.ok k r → '"' ∉ k) := by
  have hnd : ∀ (pre : List Char), '"' ∉ pre →
      ∀ x ∈ pre, notDelim '"' x = true := by
    intro pre hq x hx
    have hx' : ¬ x = '"' := fun he => hq (he ▸ hx)
    simp [notDelim, hx']
  refine ⟨?_, ?_, ?_, rfl, ?_⟩
  · intro pre post hq
    have hdrop : (pre ++ '"' :: post).dropWhile (notDelim '"') = '"' :: post := by
      rw [dropWhile_append_pos pre (hnd pre hq)]
      exact dropWhile_eq_self_neg_head _ _ (by decide)
    have htake : (pre ++ '"' :: post).takeWhile (notDelim '"') = pre := by
      rw [takeWhile_append_pos pre (hnd pre hq)]
      rw [takeWhile_eq_nil_neg_head _ _ (by decide), List.append_nil]
    simp [parse_string, litc, take_until0, hdrop, htake]
  · intro pre hq
    have hdrop : pre.dropWhile (notDelim '"') = [] :=
      dropWhile_eq_nil_pos pre (hnd pre hq)
    simp [parse_string, litc, take_until0, hdrop]
  · intro c rest hc
    simp [parse_string, litc, hc, PRes.isErr]
  · intro s k r h
    cases s with
    | nil => simp [parse_string, litc] at h
    | cons c s1 =>
      by_cases hc : c = '"'
      · subst hc
        have e1 : litc '"' ('"' :: s1) = PRes.ok () s1 := by simp [litc]
        simp only [parse_string, e1] at h
        by_cases he : (s1.dropWhile (notDelim '"')).isEmpty = true
        · have e2 : take_until0 '"' s1 = PRes.err s1 := by
            rw [take_until0, if_pos he]
          rw [e2] at h
          simp at h
        · have e2 : take_until0 '"' s1 =
              PRes.ok (s1.takeWhile (notDelim '"'))
                (s1.dropWhile (notDelim '"')) := by
            rw [take_until0, if_neg he]
          rw [e2] at h
          cases hd : s1.dropWhile (notDelim '"') with
          | nil =>
            rw [hd] at h
            simp [litc] at h
          | cons q r2 =>
            rw [hd] at h
            by_cases hq : q = '"'
            · subst hq
              have e3 : litc '"' ('"' :: r2) = PRes.ok () r2 := by simp [litc]
              simp only [e3, PRes.ok.injEq] at h
              obtain ⟨hk, _⟩ := h
              intro hmem
              rw [← hk] at hmem
              have := mem_takeWhile_pred s1 '"' hmem
              simp [notDelim] at this
            · have e3 : litc '"' (q :: r2) = PRes.err (q :: r2) := by
                simp [litc, hq]
              simp [e3] at h
      · simp [parse_string, litc, hc] at h

/-- Witness for claim C7 at the concrete input `"hello"`. -/
theorem c7_parse_string_spec_witness :
    parse_string ['"', 'h', 'e', 'l', 'l', 'o', '"'] =
      PRes.ok ['h', 'e', 'l', 'l', 'o'] [] :=
  c7_parse_string_spec.1 ['h', 'e', 'l', 'l', 'o'] [] (by decide)

/-- Claim C4: the dispatcher tries the alternatives in the fixed order
null, bool, number, string, array, object; every alternative is judged at
the same starting input `s` (the checkpoint is restored after each failed
attempt), the first success is committed to, and the dispatch fails only
when all six alternatives fail. -/
theorem c4_dispatch_order (n : Nat) (s : List Char) :
    (∀ (a : JsonValue) (r : List Char),
      pNullV s = PRes.ok a r → parse_valueF (n + 1) s = PRes.ok a r) ∧
    ((pNullV s).isErr = true →
      ∀ a r, pBoolV s = PRes.ok a r → parse_valueF (n + 1) s = PRes.ok a r) ∧
    ((pNullV s).isErr = true → (pBoolV s).isErr = true →
      ∀ a r, pNumV s = PRes.ok a r → parse_valueF (n + 1) s = PRes.ok a r) ∧
    ((pNullV s).isErr = true → (pBoolV s).isErr = true →
      (pNumV s).isErr = true →
      ∀ a r, pStringV s = PRes.ok a r → parse_valueF (n + 1) s = PRes.ok a r) ∧
    ((pNullV s).isErr = true → (pBoolV s).isErr = true →
      (pNumV s).isErr = true → (pStringV s).isErr = true →
      ∀ a r, pArrayV (parse_valueF n) s = PRes.ok a r →
        parse_valueF (n + 1) s = PRes.ok a r) ∧
    ((pNullV s).isErr = true → (pBoolV s).isErr = true →
      (pNumV s).isErr = true → (pStringV s).isErr = true →
      (pArrayV (parse_valueF n) s).isErr = true →
      ∀ a r, pObjectV (parse_valueF n) s = PRes.ok a r →
        parse_valueF (n + 1) s = PRes.ok a r) ∧
    ((pNullV s).isErr = true → (pBoolV s).isErr = true →
      (pNumV s).isErr = true → (pStringV s).isErr = true →
      (pArrayV (parse_valueF n) s).isErr = true →
      (pObjectV (parse_valueF n) s).isErr = true →
      (parse_valueF (n + 1) s).isErr = true) := by
  have hpv : parse_valueF (n + 1) s =
      altL [pNullV, pBoolV, pNumV, pStringV,
            pArrayV (parse_valueF n), pObjectV (parse_valueF n)] s := rfl
  refine ⟨?_, ?_, ?_, ?_, ?_, ?_, ?_⟩
  · intro a r h
    rw [hpv]
    exact altL_cons_ok _ _ _ _ _ h
  · intro h1 a r h
    obtain ⟨r1, e1⟩ := (PRes.isErr_iff _).1 h1
    rw [hpv, altL_cons_err _ _ _ _ _ e1]
    exact altL_cons_ok _ _ _ _ _ h
  · intro h1 h2 a r h
    obtain ⟨r1, e1⟩ := (PRes.isErr_iff _).1 h1
    obtain ⟨r2, e2⟩ := (PRes.isErr_iff _).1 h2
    rw [hpv, altL_cons_err _ _ _ _ _ e1, altL_cons_err _ _ _ _ _ e2]
    exact altL_cons_ok _ _ _ _ _ h
  · intro h1 h2 h3 a r h
    obtain ⟨r1, e1⟩ := (PRes.isErr_iff _).1 h1
    obtain ⟨r2, e2⟩ := (PRes.isErr_iff _).1 h2
    obtain ⟨r3, e3⟩ := (PRes.isErr_iff _).1 h3
    rw [hpv, altL_cons_err _ _ _ _ _ e1, altL_cons_err _ _ _ _ _ e2,
        altL_cons_err _ _ _ _ _ e3]
    exact altL_cons_ok _ _ _ _ _ h
  · intro h1 h2 h3 h4 a r h
    obtain ⟨r1, e1⟩ := (PRes.isErr_iff _).1 h1
    obtain ⟨r2, e2⟩ := (PRes.isErr_iff _).1 h2
    obtain ⟨r3, e3⟩ := (PRes.isErr_iff _).1 h3
    obtain ⟨r4, e4⟩ := (PRes.isErr_iff _).1 h4
    rw [hpv, altL_cons_err _ _ _ _ _ e1, altL_cons_err _ _ _ _ _ e2,
        altL_cons_err _ _ _ _ _ e3, altL_cons_err _ _ _ _ _ e4]
    exact altL_cons_ok _ _ _ _ _ h
  · intro h1 h2 h3 h4 h5 a r h
    obtain ⟨r1, e1⟩ := (PRes.isErr_iff _).1 h1
    obtain ⟨r2, e2⟩ := (PRes.isErr_iff _).1 h2
    obtain ⟨r3, e3⟩ := (PRes.isErr_iff _).1 h3
    obtain ⟨r4, e4⟩ := (PRes.isErr_iff _).1 h4
    obtain ⟨r5, e5⟩ := (PRes.isErr_iff _).1 h5
    rw [hpv, altL_cons_err _ _ _ _ _ e1, altL_cons_err _ _ _ _ _ e2,
        altL_cons_err _ _ _ _ _ e3, altL_cons_err _ _ _ _ _ e4,
        altL_cons_err _ _ _ _ _ e5]
    exact h
  · intro h1 h2 h3 h4 h5 h6
    obtain ⟨r1, e1⟩ := (PRes.isErr_iff _).1 h1
    obtain ⟨r2, e2⟩ := (PRes.isErr_iff _).1 h2
    obtain ⟨r3, e3⟩ := (PRes.isErr_iff _).1 h3
    obtain ⟨r4, e4⟩ := (PRes.isErr_iff _).1 h4
    obtain ⟨r5, e5⟩ := (PRes.isErr_iff _).1 h5
    obtain ⟨r6, e6⟩ := (PRes.isErr_iff _).1 h6
    rw [hpv, altL_cons_err _ _ _ _ _ e1, altL_cons_err _ _ _ _ _ e2,
        altL_cons_err _ _ _ _ _ e3, altL_cons_err _ _ _ _ _ e4,
        altL_cons_err _ _ _ _ _ e5]
    rw [show altL [pObjectV (parse_valueF n)] s = pObjectV (parse_valueF n) s
          from rfl, e6]
    rfl

/-- Witness for claim C4: on `"true"`, the null alternative fails and the
bool alternative succeeds at the same offset, so the dispatcher commits
to it. -/
theorem c4_dispatch_order_witness :
    parse_valueF 1 trueLit = PRes.ok (JsonValue.Bool true) [] :=
  (c4_dispatch_order 0 trueLit).2.1 (by rfl) (JsonValue.Bool true) [] (by rfl)

/-- Claim C10: a document consisting of at least one whitespace character
followed by a scalar literal (null, boolean, number or string, i.e. a
token starting with `n`, `t`, `f`, `"`, `-` or a digit) fails to parse:
leading whitespace is only skipped inside the array and object
alternatives, and those reject the scalar's first character; the same
scalar without leading whitespace (e.g. `"true"`) parses successfully. -/
theorem c10_leading_ws_scalar_fails (w t : List Char) (hw : w ≠ [])
    (hws : ∀ c ∈ w, wsChar c = true) (ht : scalarStartHead t = true) :
    (parse_value (w ++ t)).isErr = true ∧
    parse_value trueLit = PRes.ok (JsonValue.Bool true) [] := by
  refine ⟨?_, rfl⟩
  obtain ⟨c0, w', rfl⟩ : ∃ c0 w', w = c0 :: w' := by
    cases w with
    | nil => exact absurd rfl hw
    | cons c0 w' => exact ⟨c0, w', rfl⟩
  obtain ⟨c1, t', rfl⟩ : ∃ c1 t', t = c1 :: t' := by
    cases t with
    | nil => exact absurd ht (by simp [scalarStartHead])
    | cons c1 t' => exact ⟨c1, t', rfl⟩
  have hc0 : wsChar c0 = true := hws c0 (by simp)
  obtain ⟨hn, ht2, hf, hq, hm, hdg⟩ := wsChar_not_scalar hc0
  have ht1 : scalarStart c1 = true := by simpa [scalarStartHead] using ht
  obtain ⟨hbr, hbc, hwsc1⟩ := scalarStart_facts ht1
  have hdw : List.dropWhile wsChar (c0 :: (w' ++ c1 :: t')) = c1 :: t' :=
    (dropWhile_append_pos (c0 :: w') hws (c1 :: t')).trans
      (dropWhile_eq_self_neg_head c1 t' hwsc1)
  have e1 : pNullV ((c0 :: w') ++ (c1 :: t')) =
      PRes.err ((c0 :: w') ++ (c1 :: t')) := by
    have h := lit_cons_ne ['u', 'l', 'l'] (w' ++ (c1 :: t')) hn
    simp [pNullV, pmap, parse_null, nullLit, h]
  have e2 : pBoolV ((c0 :: w') ++ (c1 :: t')) =
      PRes.err ((c0 :: w') ++ (c1 :: t')) := by
    have h1 := lit_cons_ne ['r', 'u', 'e'] (w' ++ (c1 :: t')) ht2
    have h2 := lit_cons_ne ['a', 'l', 's', 'e'] (w' ++ (c1 :: t')) hf
    simp [pBoolV, pmap, parse_bool, trueLit, falseLit, h1, h2]
  have e3 : pNumV ((c0 :: w') ++ (c1 :: t')) =
      PRes.err ((c0 :: w') ++ (c1 :: t')) := by
    have h1 := lit_cons_ne [] (w' ++ (c1 :: t')) hm
    have h2 : digit1 (c0 :: (w' ++ c1 :: t')) =
        PRes.err (c0 :: (w' ++ c1 :: t')) :=
      digit1_err_head _ hdg
    simp [pNumV, pmap, parse_num, h1, digit1I64, h2]
  have e4 : pStringV ((c0 :: w') ++ (c1 :: t')) =
      PRes.err ((c0 :: w') ++ (c1 :: t')) := by
    simp [pStringV, pmap, parse_string, litc, hq]
  have e5 : ∀ pv : P JsonValue, pArrayV pv ((c0 :: w') ++ (c1 :: t')) =
      PRes.err (c1 :: t') := by
    intro pv
    have hlb : litc '[' (c1 :: t') = PRes.err (c1 :: t') := by
      simp [litc, hbr]
    simp [pArrayV, pmap, parse_arrayWith, skip_whitespace, hdw, hlb]
  have e6 : ∀ pv : P JsonValue, pObjectV pv ((c0 :: w') ++ (c1 :: t')) =
      PRes.err (c1 :: t') := by
    intro pv
    have hlb : litc '\x7b' (c1 :: t') = PRes.err (c1 :: t') := by
      simp [litc, hbc]
    simp [pObjectV, pmap, parse_objectWith, skip_whitespace, hdw, hlb]
  have hall : ∀ n : Nat,
      (parse_valueF (n + 1) ((c0 :: w') ++ (c1 :: t'))).isErr = true := by
    intro n
    have hpv : parse_valueF (n + 1) ((c0 :: w') ++ (c1 :: t')) =
        altL [pNullV, pBoolV, pNumV, pStringV,
              pArrayV (parse_valueF n), pObjectV (parse_valueF n)]
          ((c0 :: w') ++ (c1 :: t')) := rfl
    rw [hpv, altL_cons_err _ _ _ _ _ e1, altL_cons_err _ _ _ _ _ e2,
        altL_cons_err _ _ _ _ _ e3, altL_cons_err _ _ _ _ _ e4,
        altL_cons_err _ _ _ _ _ (e5 (parse_valueF n))]
    rw [show altL [pObjectV (parse_valueF n)] ((c0 :: w') ++ (c1 :: t')) =
          pObjectV (parse_valueF n) ((c0 :: w') ++ (c1 :: t')) from rfl,
        e6 (parse_valueF n)]
    rfl
  exact hall _

/-- Witness for claim C10: `" true"` fails to parse while `"true"`
succeeds. -/
theorem c10_leading_ws_scalar_fails_witness :
    (parse_value ([' '] ++ trueLit)).isErr = true ∧
    parse_value trueLit = PRes.ok (JsonValue.Bool true) [] :=
  c10_leading_ws_scalar_fails [' '] trueLit (by decide) (by decide) (by decide)
